import Mathlib

/-!
Verification development for the `blocks` batch-normalization module
(`blocks/bricks/bn.py`).

The module has two halves:

1. the `BatchNormalization` brick family (`BatchNormalization`,
   `SpatialBatchNormalization`, `BatchNormalizedMLP`): configuration,
   parameter allocation and initialization;
2. the `batch_normalize` graph rewriter, which finds offset
   (population-mean), divisor (population-stdev) and input variables of
   `BatchNormalization` applications inside a symbolic computation graph
   and records replacements by minibatch statistics.

We embed the code shallowly: symbolic Theano variables become a record
carrying the metadata the rewriter inspects (roles, annotations,
application call, broadcastable pattern); the newly built minibatch
expressions become an inductive symbolic-expression type; tensors become
shape/broadcast-pattern/fill records.  Machinery supplied by the host
framework but not present in this file (variable filters keyed on roles,
`get_application_call`, `ComputationGraph.replace`, the `MLP` base
class, `Constant` initializers) is modelled from the specification, as
marked on each such definition.
-/

/-- Variable roles, from `blocks.roles` (only the ones `bn.py` uses). -/
inductive Role where
  | INPUT
  | WEIGHT
  | BIAS
  | BATCH_NORM_POPULATION_MEAN
  | BATCH_NORM_POPULATION_STDEV
  | BATCH_NORM_OFFSET
  | BATCH_NORM_DIVISOR
  | BATCH_NORM_MINIBATCH_ESTIMATE
deriving DecidableEq, Repr

/-- Modelled from the spec: an application call is "the record of one
invocation of the brick's forward computation, used as a join key"; it
links back to the brick that produced it (`application_call.application.brick`).
The `id` field models Python object identity. -/
structure AppCall where
  id : Nat
  brick : Nat
deriving DecidableEq, Repr

/-- A pre-existing symbolic graph variable, carrying exactly the
metadata `batch_normalize` reads: its roles, whether it is annotated
with a `BatchNormalization` brick (the `bricks=[BatchNormalization]`
filter), the application call that produced it (`get_application_call`,
modelled from the spec as total on tracked variables), and its
broadcastable pattern.  `id` models Python object identity. -/
structure Var where
  id : Nat
  roles : List Role := []
  isBN : Bool := true
  appCall : AppCall
  broadcastable : List Bool := []
deriving DecidableEq, Repr

/-- Annotations attached to a newly created variable: the application
call and the brick (`add_annotation(new, application_call)` and
`add_annotation(new, application_call.application.brick)`). -/
inductive Annot where
  | call (c : AppCall)
  | brick (b : Nat)
deriving DecidableEq, Repr

/-- Symbolic tensor expressions built by `batch_normalize`:
`input.mean(axis=axes, keepdims=True)`,
`tensor.var(input, axis=axes, keepdims=True)`, `tensor.sqrt`, `+ epsilon`. -/
inductive TExpr where
  | evar (v : Var)
  | mean (e : TExpr) (axes : List Nat) (keepdims : Bool)
  | variance (e : TExpr) (axes : List Nat) (keepdims : Bool)
  | sqrt (e : TExpr)
  | add (a b : TExpr)
  | const (c : ℚ)
deriving DecidableEq, Repr

/-- A newly created variable, with the metadata `prepare_replacement`
sets on it: roles added by `add_role`, annotations added by
`add_annotation`, the `tag.replacement_of` back pointer, and its `name`. -/
structure NewVar where
  expr : TExpr
  name : String
  roles : List Role
  annots : List Annot
  replacement_of : Var
deriving DecidableEq, Repr

/-- Modelled from the spec: `VariableFilter(bricks=[BatchNormalization],
roles=[role])` selects the graph variables annotated with a
`BatchNormalization` brick that carry the given role, in graph order. -/
def VariableFilter (role : Role) (g : List Var) : List Var :=
  g.filter (fun v => v.isBN && decide (role ∈ v.roles))

/-- One insertion step of Python's `OrderedDict` construction: an
existing key keeps its position and gets the new value, a new key is
appended. -/
def odInsert (d : List (AppCall × Var)) (k : AppCall) (v : Var) :
    List (AppCall × Var) :=
  if d.any (fun p => decide (p.1 = k)) then
    d.map (fun p => if p.1 = k then (k, v) else p)
  else
    d ++ [(k, v)]

/-- `OrderedDict((get_application_call(v), v) for v in vs)`. -/
def appCallDict (vs : List Var) : List (AppCall × Var) :=
  vs.foldl (fun d v => odInsert d v.appCall v) []

/-- Keys of an ordered dict, in order. -/
def odKeys (d : List (AppCall × Var)) : List AppCall :=
  d.map Prod.fst

/-- Values of an ordered dict, in order. -/
def odValues (d : List (AppCall × Var)) : List Var :=
  d.map Prod.snd

/-- Dictionary lookup `d[k]` (`none` models a `KeyError`). -/
def lookupOD (d : List (AppCall × Var)) (k : AppCall) : Option Var :=
  (d.find? (fun p => decide (p.1 = k))).map Prod.snd

/-- Bool version of Python `set(xs) == set(ys)`. -/
def setEqB (xs ys : List AppCall) : Bool :=
  xs.all (fun x => ys.any (fun y => decide (y = x))) &&
    ys.all (fun y => xs.any (fun x => decide (x = y)))

/-- Bool version of Python `set(xs).isdisjoint(ys)`. -/
def disjointB (xs ys : List Var) : Bool :=
  xs.all (fun x => !(ys.any (fun y => decide (y = x))))

/-- `tuple(i for i, b in enumerate(broadcastable) if b)`. -/
def trueAxes (bc : List Bool) : List Nat :=
  (bc.enum.filter (fun p => p.2)).map Prod.fst

/-- The new offset variable built for one application call:
`inputs[call].mean(axis=axes, keepdims=True)` named
`minibatch_offset`, with the roles, annotations and back pointer that
`prepare_replacement` attaches. -/
def minibatchOffsetVar (k : AppCall) (m i : Var) : NewVar :=
  { expr := TExpr.mean (TExpr.evar i) (trueAxes m.broadcastable) true
  , name := "minibatch_offset"
  , roles := [Role.BATCH_NORM_MINIBATCH_ESTIMATE, Role.BATCH_NORM_OFFSET]
  , annots := [Annot.call k, Annot.brick k.brick]
  , replacement_of := m }

/-- The new divisor variable built for one application call:
`sqrt(var(inputs[call], axis=axes, keepdims=True) + epsilon)` named
`minibatch_divisor`, with the metadata `prepare_replacement` attaches.
The axes come from the offset variable `m`'s broadcastable pattern. -/
def minibatchDivisorVar (epsilon : ℚ) (k : AppCall) (m s i : Var) : NewVar :=
  { expr := TExpr.sqrt (TExpr.add
      (TExpr.variance (TExpr.evar i) (trueAxes m.broadcastable) true)
      (TExpr.const epsilon))
  , name := "minibatch_divisor"
  , roles := [Role.BATCH_NORM_MINIBATCH_ESTIMATE, Role.BATCH_NORM_DIVISOR]
  , annots := [Annot.call k, Annot.brick k.brick]
  , replacement_of := s }

/-- The loop body of `batch_normalize` for one application call: look up
the divisor and input variables for the call, build the two minibatch
estimates and the two replacement pairs `(old, new)`. -/
def processCall (epsilon : ℚ) (stdevs inputs : List (AppCall × Var))
    (k : AppCall) (m : Var) : Option (List (Var × NewVar)) := do
  let s ← lookupOD stdevs k
  let i ← lookupOD inputs k
  pure [(m, minibatchOffsetVar k m i), (s, minibatchDivisorVar epsilon k m s i)]

/-- The `for application_call in means` loop: accumulate the replacement
pairs of every application call, in dictionary order. -/
def buildReplacements (epsilon : ℚ) (stdevs inputs : List (AppCall × Var)) :
    List (AppCall × Var) → Option (List (Var × NewVar))
  | [] => some []
  | (k, m) :: rest => do
      let r ← processCall epsilon stdevs inputs k m
      let rs ← buildReplacements epsilon stdevs inputs rest
      pure (r ++ rs)

/-- Modelled from the spec: `ComputationGraph.replace` is the host
framework's graph "replace" operation, "returning a new graph with
substitutions applied"; the original graph is a component of the result,
untouched, together with the full substitution list. -/
structure TrainingGraph where
  base : List Var
  replacements : List (Var × NewVar)
deriving DecidableEq, Repr

/-- Modelled from the spec: build the new graph from the unchanged
original and the substitution list, in one call. -/
def ComputationGraph.replace (g : List Var) (rs : List (Var × NewVar)) :
    TrainingGraph :=
  ⟨g, rs⟩

/-- Embedding of `batch_normalize(computation_graph, epsilon=1e-4)`.
`none` models a failed `assert`.  The ordered dicts `means`, `stdevs`,
`inputs` group the filtered variables by application call; the two
asserts compare key sets and check value disjointness; then the loop
builds the replacement list and a single `replace` call produces the
new graph. -/
def batch_normalize (g : List Var) (epsilon : ℚ := 1 / 10000) :
    Option TrainingGraph :=
  let means := appCallDict (VariableFilter Role.BATCH_NORM_OFFSET g)
  let stdevs := appCallDict (VariableFilter Role.BATCH_NORM_DIVISOR g)
  let inputs := appCallDict (VariableFilter Role.INPUT g)
  if setEqB (odKeys means) (odKeys stdevs) &&
      setEqB (odKeys means) (odKeys inputs) &&
      disjointB (odValues means) (odValues stdevs) then
    (buildReplacements epsilon stdevs inputs means).map
      (ComputationGraph.replace g)
  else
    none

/-- Structural equality of symbolic expressions (used to state that two
runs produce structurally equal new expressions). -/
def TExpr.structEq : TExpr → TExpr → Bool
  | TExpr.evar v, TExpr.evar w => decide (v = w)
  | TExpr.mean e a k, TExpr.mean f b l =>
      TExpr.structEq e f && decide (a = b) && decide (k = l)
  | TExpr.variance e a k, TExpr.variance f b l =>
      TExpr.structEq e f && decide (a = b) && decide (k = l)
  | TExpr.sqrt e, TExpr.sqrt f => TExpr.structEq e f
  | TExpr.add e1 e2, TExpr.add f1 f2 =>
      TExpr.structEq e1 f1 && TExpr.structEq e2 f2
  | TExpr.const c, TExpr.const d => decide (c = d)
  | _, _ => false

/-- An `input_dim` is an int or a tuple (`isinstance(input_dim,
collections.Sequence)` distinguishes the two). -/
inductive InputDim where
  | int (n : Nat)
  | tuple (dims : List Nat)
deriving DecidableEq, Repr

/-- `(input_dim,) if not isinstance(input_dim, collections.Sequence)
else input_dim`. -/
def normalizeInputDim : InputDim → List Nat
  | InputDim.int n => [n]
  | InputDim.tuple l => l

/-- Modelled from the spec: `blocks.initialization.Constant(c)` fills a
tensor with the constant `c` (the only initializer `bn.py` constructs). -/
inductive Initializer where
  | Constant (c : ℚ)
deriving DecidableEq, Repr

/-- A tensor cell value; `nan` models the fill of
`shared_floatx_nans`. -/
inductive Val where
  | nan
  | num (q : ℚ)
deriving DecidableEq, Repr

/-- A shared tensor as `_allocate` builds it: a shape, a broadcastable
pattern and a uniform fill (every construction in `bn.py` is a uniform
fill: nans, zeros, ones, constants). -/
structure Tensor where
  shape : List Nat
  broadcastable : List Bool
  fill : Val
deriving DecidableEq, Repr

/-- Modelled from the spec: applying an initializer to a tensor
(`Constant(c).initialize(t, rng)` fills `t` with `c`). -/
def Initializer.initialize : Initializer → Tensor → Tensor
  | Initializer.Constant c, t => { t with fill := Val.num c }

/-- The configuration state a `BatchNormalization` brick holds after
`__init__` (input_dim may be left unset by the `@lazy` mechanism). -/
structure BatchNormalization where
  input_dim : Option InputDim := none
  broadcastable : Option (List Bool) := none
  save_memory : Bool := true
  weights_init : Initializer := Initializer.Constant 1
  biases_init : Initializer := Initializer.Constant 0
deriving DecidableEq, Repr

/-- `BatchNormalization.__init__`: stores the arguments, defaulting
`weights_init` to `Constant(1)` and `biases_init` to `Constant(0)` when
they are not supplied. -/
def BatchNormalization.init (input_dim : Option InputDim)
    (broadcastable : Option (List Bool)) (save_memory : Bool)
    (weights_init biases_init : Option Initializer) : BatchNormalization :=
  { input_dim := input_dim
  , broadcastable := broadcastable
  , save_memory := save_memory
  , weights_init := weights_init.getD (Initializer.Constant 1)
  , biases_init := biases_init.getD (Initializer.Constant 0) }

/-- The shared tensors `_allocate` creates. -/
structure AllocState where
  W : Tensor
  b : Tensor
  population_mean : Tensor
  population_stdev : Tensor
deriving DecidableEq, Repr

/-- `BatchNormalization._allocate`: normalize `input_dim` to a tuple,
default the broadcastable pattern to all-`False`, check the lengths
match (raising `ValueError` otherwise), build `var_dim = (1,) + (1 if
broadcast else dim ...)` and the `(True,) + broadcastable` pattern, and
create the four shared tensors (scale and shift as nans, population
mean as zeros, population stdev as ones). -/
def BatchNormalization.allocate (bn : BatchNormalization) :
    Except String AllocState :=
  match bn.input_dim with
  | none => Except.error "lazy allocation: input_dim not configured"
  | some d =>
    let input_dim := normalizeInputDim d
    let broadcastable := bn.broadcastable.getD (input_dim.map (fun _ => false))
    if input_dim.length ≠ broadcastable.length then
      Except.error "input_dim and broadcastable must be same length"
    else
      let var_dim : List Nat :=
        1 :: (input_dim.zip broadcastable).map
          (fun p => if p.2 then 1 else p.1)
      let bc : List Bool := true :: broadcastable
      Except.ok
        { W := ⟨var_dim, bc, Val.nan⟩
        , b := ⟨var_dim, bc, Val.nan⟩
        , population_mean := ⟨var_dim, bc, Val.num 0⟩
        , population_stdev := ⟨var_dim, bc, Val.num 1⟩ }

/-- `BatchNormalization._initialize`: apply `biases_init` to the shift
and `weights_init` to the scale. -/
def BatchNormalization.runInitialize (bn : BatchNormalization)
    (st : AllocState) : AllocState :=
  { st with
    b := bn.biases_init.initialize st.b
  , W := bn.weights_init.initialize st.W }

/-- Whether an `Except` result is a success. -/
def exceptOk : Except String α → Bool
  | Except.ok _ => true
  | Except.error _ => false

/-- `SpatialBatchNormalization.__init__`: fail unless `input_dim` is a
sequence of length at least 2, then compute the spatial broadcast
pattern `(False,) + (True,) * (len(input_dim) - 1)` and pass it on via
`kwargs.setdefault('broadcastable', ...)` — an explicitly supplied
`broadcastable` keyword argument wins. -/
def SpatialBatchNormalization.init (input_dim : InputDim)
    (broadcastableKw : Option (List Bool)) (save_memory : Bool)
    (weights_init biases_init : Option Initializer) :
    Except String BatchNormalization :=
  match input_dim with
  | InputDim.int _ =>
      Except.error "expected input_dim to be length >= 2 (channels, height, width)"
  | InputDim.tuple l =>
    if l.length < 2 then
      Except.error "expected input_dim to be length >= 2 (channels, height, width)"
    else
      let spatial : List Bool := false :: List.replicate (l.length - 1) true
      Except.ok (BatchNormalization.init (some (InputDim.tuple l))
        (some (broadcastableKw.getD spatial)) save_memory
        weights_init biases_init)

/-- A child of the `Sequence` wrapping each activation: either the
`BatchNormalization` brick or the activation application (activations
are opaque, identified by a number). -/
inductive SeqChild where
  | bnChild (bn : BatchNormalization)
  | actChild (a : Nat)
deriving DecidableEq, Repr

/-- A `Sequence` brick with its name and children, in order. -/
structure SequenceBrick where
  name : String
  children : List SeqChild
deriving DecidableEq, Repr

/-- Modelled from the spec: a `Linear` brick of the `MLP` base class,
holding its `use_bias` flag and its (lazily set) input and output
widths. -/
structure LinearBrick where
  use_bias : Bool
  input_dim : Option Nat := none
  output_dim : Option Nat := none
deriving DecidableEq, Repr

/-- The state of a `BatchNormalizedMLP` after `__init__`. -/
structure BatchNormalizedMLP where
  activations : List SequenceBrick
  dims : List Nat
  use_bias : Bool
  linear_transformations : List LinearBrick
deriving DecidableEq, Repr

/-- `BatchNormalizedMLP.__init__`: wrap each activation in a `Sequence`
named `batch_norm_activation_{i}` whose children are a fresh
`BatchNormalization` brick (all config unset or default) followed by
the activation; default `use_bias` to `False` via
`kwargs.setdefault('use_bias', False)`.  Modelled from the spec for the
`MLP` base class: one `Linear` brick per layer, receiving the
`use_bias` flag, widths set later by allocation-config pushing. -/
def BatchNormalizedMLP.init (activations : List Nat) (dims : List Nat)
    (use_bias : Option Bool) : BatchNormalizedMLP :=
  let ub := use_bias.getD false
  { activations := activations.enum.map (fun p =>
      { name := "batch_norm_activation_" ++ toString p.1
      , children :=
          [ SeqChild.bnChild (BatchNormalization.init none none true none none)
          , SeqChild.actChild p.2 ] })
  , dims := dims
  , use_bias := ub
  , linear_transformations := activations.map (fun _ =>
      { use_bias := ub }) }

/-- `act.children[0].input_dim = dim`: set the input dimension of the
first child (always the `BatchNormalization` brick for sequences built
by `BatchNormalizedMLP.init`). -/
def setFirstChildInputDim : List SeqChild → Nat → List SeqChild
  | SeqChild.bnChild bn :: rest, d =>
      SeqChild.bnChild { bn with input_dim := some (InputDim.int d) } :: rest
  | cs, _ => cs

/-- `BatchNormalizedMLP._push_allocation_config`: the superclass pushes
`dims` into the linear transformations (modelled from the spec: the
i-th linear layer maps `dims[i]` to `dims[i+1]`), then each
batch-normalization sub-brick receives as `input_dim` the output width
of its linear layer, `for act, dim in equizip(self.activations,
self.dims[1:])` (`equizip` fails on length mismatch, modelled by
`none`). -/
def BatchNormalizedMLP.pushAllocationConfig (m : BatchNormalizedMLP) :
    Option BatchNormalizedMLP :=
  if m.linear_transformations.length = m.dims.tail.length ∧
      m.activations.length = m.dims.tail.length then
    some { m with
      linear_transformations :=
        (m.linear_transformations.zip (m.dims.zip m.dims.tail)).map
          (fun p => { p.1 with
            input_dim := some p.2.1
          , output_dim := some p.2.2 })
    , activations :=
        (m.activations.zip m.dims.tail).map (fun p =>
          { p.1 with children := setFirstChildInputDim p.1.children p.2 }) }
  else
    none

/-- A concrete application call used in witnesses. -/
def exCall : AppCall :=
  ⟨0, 7⟩

/-- A concrete offset (population mean) variable. -/
def exMean : Var :=
  { id := 1, roles := [Role.BATCH_NORM_OFFSET], appCall := exCall
  , broadcastable := [true, false, true] }

/-- A concrete divisor (population stdev) variable. -/
def exStdev : Var :=
  { id := 2, roles := [Role.BATCH_NORM_DIVISOR], appCall := exCall
  , broadcastable := [true, false, true] }

/-- A concrete input variable. -/
def exInput : Var :=
  { id := 3, roles := [Role.INPUT], appCall := exCall
  , broadcastable := [false, false, false] }

/-- A concrete well-formed computation graph with one
batch-normalization application. -/
def exGraph : List Var :=
  [exMean, exStdev, exInput]

/-- The training graph `batch_normalize` produces on `exGraph` with
`epsilon = 1`. -/
def exOut : TrainingGraph :=
  ⟨exGraph,
    [ (exMean, minibatchOffsetVar exCall exMean exInput)
    , (exStdev, minibatchDivisorVar 1 exCall exMean exStdev exInput) ]⟩


/-- A graph in which one variable carries both the offset and the
divisor role for call `⟨1, 9⟩`. -/
def aliasVar : Var :=
  { id := 1, roles := [Role.BATCH_NORM_OFFSET, Role.BATCH_NORM_DIVISOR]
  , appCall := ⟨1, 9⟩, broadcastable := [true] }

/-- A second offset variable for the same call, appearing later in the
graph, which shadows `aliasVar` in the offset dictionary. -/
def shadowMean : Var :=
  { id := 2, roles := [Role.BATCH_NORM_OFFSET], appCall := ⟨1, 9⟩
  , broadcastable := [true] }

/-- The input variable of call `⟨1, 9⟩`. -/
def aliasInput : Var :=
  { id := 3, roles := [Role.INPUT], appCall := ⟨1, 9⟩
  , broadcastable := [false] }

/-- A graph in which `aliasVar` serves as both an offset and a divisor
yet the assertions of `batch_normalize` pass, because `shadowMean`
overrides it in the offset dictionary. -/
def aliasGraph : List Var :=
  [aliasVar, shadowMean, aliasInput]

/-- The fresh, unconfigured `BatchNormalization()` brick that
`BatchNormalizedMLP.__init__` places in front of each activation. -/
def freshBN : BatchNormalization :=
  BatchNormalization.init none none true none none

theorem odKeys_odInsert (d : List (AppCall × Var)) (k : AppCall) (v : Var) :
    odKeys (odInsert d k v) =
      if d.any (fun p => decide (p.1 = k)) then odKeys d else odKeys d ++ [k] := by
  unfold odInsert odKeys
  split
  · rw [List.map_map]
    refine List.map_congr_left ?_
    intro p _
    by_cases hp : p.1 = k
    · simp [hp]
    · simp [hp]
  · simp

theorem mem_odKeys_foldl (vs : List Var) :
    ∀ (d : List (AppCall × Var)) (k : AppCall),
      k ∈ odKeys (vs.foldl (fun d v => odInsert d v.appCall v) d) ↔
        k ∈ odKeys d ∨ k ∈ vs.map Var.appCall := by
  induction vs with
  | nil => intro d k; simp
  | cons v vs ih =>
    intro d k
    have step : (v :: vs).foldl (fun d v => odInsert d v.appCall v) d =
        vs.foldl (fun d v => odInsert d v.appCall v) (odInsert d v.appCall v) := rfl
    rw [step, ih]
    have hins : k ∈ odKeys (odInsert d v.appCall v) ↔
        k ∈ odKeys d ∨ k = v.appCall := by
      rw [odKeys_odInsert]
      split
      · rename_i hany
        rw [List.any_eq_true] at hany
        obtain ⟨p, hp, hpk⟩ := hany
        rw [decide_eq_true_iff] at hpk
        constructor
        · exact fun h => Or.inl h
        · rintro (h | rfl)
          · exact h
          · exact hpk ▸ List.mem_map_of_mem Prod.fst hp
      · simp
    rw [hins]
    simp only [List.map_cons, List.mem_cons]
    tauto

theorem mem_odKeys_appCallDict (vs : List Var) (k : AppCall) :
    k ∈ odKeys (appCallDict vs) ↔ k ∈ vs.map Var.appCall := by
  unfold appCallDict
  rw [mem_odKeys_foldl]
  simp [odKeys]

theorem setEqB_iff_toFinset_eq (xs ys : List AppCall) :
    setEqB xs ys = true ↔ xs.toFinset = ys.toFinset := by
  unfold setEqB
  rw [Bool.and_eq_true, List.all_eq_true, List.all_eq_true]
  constructor
  · rintro ⟨h1, h2⟩
    ext a
    simp only [List.mem_toFinset]
    constructor
    · intro ha
      have := h1 a ha
      rw [List.any_eq_true] at this
      obtain ⟨y, hy, hya⟩ := this
      rw [decide_eq_true_iff] at hya
      exact hya ▸ hy
    · intro ha
      have := h2 a ha
      rw [List.any_eq_true] at this
      obtain ⟨x, hx, hxa⟩ := this
      rw [decide_eq_true_iff] at hxa
      exact hxa ▸ hx
  · intro h
    have hmem : ∀ a, a ∈ xs ↔ a ∈ ys := by
      intro a
      rw [← List.mem_toFinset, h, List.mem_toFinset]
    constructor
    · intro x hx
      rw [List.any_eq_true]
      exact ⟨x, (hmem x).mp hx, decide_eq_true rfl⟩
    · intro y hy
      rw [List.any_eq_true]
      exact ⟨y, (hmem y).mpr hy, decide_eq_true rfl⟩

theorem disjointB_iff (xs ys : List Var) :
    disjointB xs ys = true ↔ ∀ v ∈ xs, v ∉ ys := by
  unfold disjointB
  rw [List.all_eq_true]
  constructor
  · intro h v hv hvy
    have hv' := h v hv
    rw [Bool.not_eq_true', List.any_eq_false] at hv'
    exact (hv' v hvy) (decide_eq_true rfl)
  · intro h v hv
    rw [Bool.not_eq_true', List.any_eq_false]
    intro y hy
    by_cases hyv : y = v
    · exact absurd (hyv ▸ hy) (h v hv)
    · simp [hyv]

theorem lookupOD_isSome (d : List (AppCall × Var)) (k : AppCall) :
    (lookupOD d k).isSome ↔ k ∈ odKeys d := by
  unfold lookupOD odKeys
  have hmap : ∀ (o : Option (AppCall × Var)),
      (o.map Prod.snd).isSome = o.isSome := by
    intro o
    cases o <;> rfl
  rw [hmap, List.find?_isSome]
  constructor
  · rintro ⟨p, hp, hpk⟩
    rw [decide_eq_true_iff] at hpk
    exact hpk ▸ List.mem_map_of_mem Prod.fst hp
  · intro h
    obtain ⟨p, hp, rfl⟩ := List.mem_map.mp h
    exact ⟨p, hp, decide_eq_true rfl⟩

theorem processCall_eq_some (epsilon : ℚ) (stdevs inputs : List (AppCall × Var))
    (k : AppCall) (m : Var) (s i : Var)
    (hs : lookupOD stdevs k = some s) (hi : lookupOD inputs k = some i) :
    processCall epsilon stdevs inputs k m =
      some [(m, minibatchOffsetVar k m i), (s, minibatchDivisorVar epsilon k m s i)] := by
  unfold processCall
  rw [hs, hi]
  rfl

theorem buildReplacements_isSome (epsilon : ℚ)
    (stdevs inputs : List (AppCall × Var)) :
    ∀ means : List (AppCall × Var),
      (∀ p ∈ means, p.1 ∈ odKeys stdevs ∧ p.1 ∈ odKeys inputs) →
      (buildReplacements epsilon stdevs inputs means).isSome := by
  intro means
  induction means with
  | nil => intro _; rfl
  | cons km rest ih =>
    intro h
    obtain ⟨k, m⟩ := km
    have hk := h (k, m) (List.mem_cons_self _ _)
    obtain ⟨s, hs⟩ := Option.isSome_iff_exists.mp
      ((lookupOD_isSome stdevs k).mpr hk.1)
    obtain ⟨i, hi⟩ := Option.isSome_iff_exists.mp
      ((lookupOD_isSome inputs k).mpr hk.2)
    have hrest := ih (fun p hp => h p (List.mem_cons_of_mem _ hp))
    obtain ⟨rs, hrs⟩ := Option.isSome_iff_exists.mp hrest
    show (buildReplacements epsilon stdevs inputs ((k, m) :: rest)).isSome
    unfold buildReplacements
    rw [processCall_eq_some epsilon stdevs inputs k m s i hs hi, hrs]
    rfl

theorem buildReplacements_mem (epsilon : ℚ)
    (stdevs inputs : List (AppCall × Var)) :
    ∀ (means : List (AppCall × Var)) (r : List (Var × NewVar))
      (k : AppCall) (m : Var),
      buildReplacements epsilon stdevs inputs means = some r →
      (k, m) ∈ means →
      ∃ s i, lookupOD stdevs k = some s ∧ lookupOD inputs k = some i ∧
        (m, minibatchOffsetVar k m i) ∈ r ∧
        (s, minibatchDivisorVar epsilon k m s i) ∈ r := by
  intro means
  induction means with
  | nil =>
    intro r k m _ hmem
    exact absurd hmem (List.not_mem_nil _)
  | cons km rest ih =>
    intro r k m hbuild hmem
    obtain ⟨k0, m0⟩ := km
    unfold buildReplacements at hbuild
    rcases hp : processCall epsilon stdevs inputs k0 m0 with _ | r0
    · rw [hp] at hbuild
      exact absurd hbuild (by simp)
    rcases hb : buildReplacements epsilon stdevs inputs rest with _ | rs
    · rw [hp, hb] at hbuild
      exact absurd hbuild (by simp)
    rw [hp, hb] at hbuild
    have hr : r = r0 ++ rs := by
      simpa using hbuild.symm
    have hp' := hp
    unfold processCall at hp'
    rcases hs : lookupOD stdevs k0 with _ | s0
    · rw [hs] at hp'
      exact absurd hp' (by simp)
    rcases hi : lookupOD inputs k0 with _ | i0
    · rw [hs, hi] at hp'
      exact absurd hp' (by simp)
    rw [hs, hi] at hp'
    have hr0 : r0 = [(m0, minibatchOffsetVar k0 m0 i0),
        (s0, minibatchDivisorVar epsilon k0 m0 s0 i0)] := by
      simpa using hp'.symm
    rcases List.mem_cons.mp hmem with hhead | htail
    · have hk : k = k0 := congrArg Prod.fst hhead
      have hm : m = m0 := congrArg Prod.snd hhead
      subst hk; subst hm
      refine ⟨s0, i0, hs, hi, ?_, ?_⟩
      · rw [hr, hr0]
        exact List.mem_append_left _ (List.mem_cons_self _ _)
      · rw [hr, hr0]
        exact List.mem_append_left _
          (List.mem_cons_of_mem _ (List.mem_cons_self _ _))
    · obtain ⟨s, i, hs', hi', hmo, hmd⟩ := ih rs k m hb htail
      exact ⟨s, i, hs', hi',
        hr ▸ List.mem_append_right _ hmo,
        hr ▸ List.mem_append_right _ hmd⟩

theorem buildReplacements_length (epsilon : ℚ)
    (stdevs inputs : List (AppCall × Var)) :
    ∀ (means : List (AppCall × Var)) (r : List (Var × NewVar)),
      buildReplacements epsilon stdevs inputs means = some r →
      r.length = 2 * means.length := by
  intro means
  induction means with
  | nil =>
    intro r h
    have : r = [] := by simpa [buildReplacements] using h.symm
    simp [this]
  | cons km rest ih =>
    intro r h
    obtain ⟨k0, m0⟩ := km
    unfold buildReplacements at h
    rcases hp : processCall epsilon stdevs inputs k0 m0 with _ | r0
    · rw [hp] at h
      exact absurd h (by simp)
    rcases hb : buildReplacements epsilon stdevs inputs rest with _ | rs
    · rw [hp, hb] at h
      exact absurd h (by simp)
    rw [hp, hb] at h
    have hr : r = r0 ++ rs := by simpa using h.symm
    have hr0len : r0.length = 2 := by
      have hp' := hp
      unfold processCall at hp'
      rcases hs : lookupOD stdevs k0 with _ | s0
      · rw [hs] at hp'
        exact absurd hp' (by simp)
      rcases hi : lookupOD inputs k0 with _ | i0
      · rw [hs, hi] at hp'
        exact absurd hp' (by simp)
      rw [hs, hi] at hp'
      have : r0 = [(m0, minibatchOffsetVar k0 m0 i0),
          (s0, minibatchDivisorVar epsilon k0 m0 s0 i0)] := by
        simpa using hp'.symm
      simp [this]
    have := ih rs hb
    rw [hr, List.length_append, hr0len, this, List.length_cons]
    ring

theorem mem_trueAxesFrom (bc : List Bool) :
    ∀ (n j : ℕ),
      j ∈ ((List.enumFrom n bc).filter (fun p => p.2)).map Prod.fst ↔
        ∃ t, j = n + t ∧ bc[t]? = some true := by
  induction bc with
  | nil =>
    intro n j
    simp
  | cons b bc ih =>
    intro n j
    have hstep : List.enumFrom n (b :: bc) = (n, b) :: List.enumFrom (n + 1) bc := rfl
    rw [hstep]
    cases b with
    | true =>
      have hf : ((n, true) :: List.enumFrom (n + 1) bc).filter (fun p => p.2) =
          (n, true) :: (List.enumFrom (n + 1) bc).filter (fun p => p.2) := rfl
      rw [hf, List.map_cons, List.mem_cons, ih (n + 1) j]
      constructor
      · rintro (rfl | ⟨t, rfl, hbc⟩)
        · exact ⟨0, by omega, by simp⟩
        · exact ⟨t + 1, by omega, by simpa using hbc⟩
      · rintro ⟨t, rfl, hbc⟩
        cases t with
        | zero => exact Or.inl (by omega)
        | succ t =>
          exact Or.inr ⟨t, by omega, by simpa using hbc⟩
    | false =>
      have hf : ((n, false) :: List.enumFrom (n + 1) bc).filter (fun p => p.2) =
          (List.enumFrom (n + 1) bc).filter (fun p => p.2) := rfl
      rw [hf, ih (n + 1) j]
      constructor
      · rintro ⟨t, rfl, hbc⟩
        exact ⟨t + 1, by omega, by simpa using hbc⟩
      · rintro ⟨t, rfl, hbc⟩
        cases t with
        | zero => simp at hbc
        | succ t =>
          exact ⟨t, by omega, by simpa using hbc⟩

theorem mem_trueAxes (bc : List Bool) (j : ℕ) :
    j ∈ trueAxes bc ↔ bc[j]? = some true := by
  unfold trueAxes
  have henum : bc.enum = List.enumFrom 0 bc := rfl
  rw [henum, mem_trueAxesFrom bc 0 j]
  constructor
  · rintro ⟨t, rfl, hbc⟩
    simpa using hbc
  · intro h
    exact ⟨j, by omega, h⟩

theorem batch_normalize_def (g : List Var) (ε : ℚ) :
    batch_normalize g ε =
      if setEqB (odKeys (appCallDict (VariableFilter Role.BATCH_NORM_OFFSET g)))
            (odKeys (appCallDict (VariableFilter Role.BATCH_NORM_DIVISOR g))) &&
          setEqB (odKeys (appCallDict (VariableFilter Role.BATCH_NORM_OFFSET g)))
            (odKeys (appCallDict (VariableFilter Role.INPUT g))) &&
          disjointB (odValues (appCallDict (VariableFilter Role.BATCH_NORM_OFFSET g)))
            (odValues (appCallDict (VariableFilter Role.BATCH_NORM_DIVISOR g))) then
        (buildReplacements ε
            (appCallDict (VariableFilter Role.BATCH_NORM_DIVISOR g))
            (appCallDict (VariableFilter Role.INPUT g))
            (appCallDict (VariableFilter Role.BATCH_NORM_OFFSET g))).map
          (ComputationGraph.replace g)
      else none :=
  rfl

theorem batch_normalize_some_elim (g : List Var) (ε : ℚ) (out : TrainingGraph)
    (h : batch_normalize g ε = some out) :
    setEqB (odKeys (appCallDict (VariableFilter Role.BATCH_NORM_OFFSET g)))
        (odKeys (appCallDict (VariableFilter Role.BATCH_NORM_DIVISOR g))) = true ∧
    setEqB (odKeys (appCallDict (VariableFilter Role.BATCH_NORM_OFFSET g)))
        (odKeys (appCallDict (VariableFilter Role.INPUT g))) = true ∧
    disjointB (odValues (appCallDict (VariableFilter Role.BATCH_NORM_OFFSET g)))
        (odValues (appCallDict (VariableFilter Role.BATCH_NORM_DIVISOR g))) = true ∧
    out.base = g ∧
    buildReplacements ε
        (appCallDict (VariableFilter Role.BATCH_NORM_DIVISOR g))
        (appCallDict (VariableFilter Role.INPUT g))
        (appCallDict (VariableFilter Role.BATCH_NORM_OFFSET g)) =
      some out.replacements := by
  rw [batch_normalize_def] at h
  cases hc : (setEqB (odKeys (appCallDict (VariableFilter Role.BATCH_NORM_OFFSET g)))
        (odKeys (appCallDict (VariableFilter Role.BATCH_NORM_DIVISOR g))) &&
      setEqB (odKeys (appCallDict (VariableFilter Role.BATCH_NORM_OFFSET g)))
        (odKeys (appCallDict (VariableFilter Role.INPUT g))) &&
      disjointB (odValues (appCallDict (VariableFilter Role.BATCH_NORM_OFFSET g)))
        (odValues (appCallDict (VariableFilter Role.BATCH_NORM_DIVISOR g)))) with
  | false =>
    rw [hc] at h
    simp at h
  | true =>
    rw [hc] at h
    simp only [if_true] at h
    obtain ⟨r, hr, hout⟩ := Option.map_eq_some'.mp h
    obtain ⟨hc12, hc3⟩ := Bool.and_eq_true_iff.mp hc
    obtain ⟨hc1, hc2⟩ := Bool.and_eq_true_iff.mp hc12
    subst hout
    exact ⟨hc1, hc2, hc3, rfl, hr⟩

theorem odKeys_appCallDict_toFinset (vs : List Var) :
    (odKeys (appCallDict vs)).toFinset = (vs.map Var.appCall).toFinset := by
  ext a
  rw [List.mem_toFinset, List.mem_toFinset]
  exact mem_odKeys_appCallDict vs a

/-- C1.  For every application call processed by `batch_normalize`, the
reduction axes are exactly the indices where the offset (mean)
variable's broadcastable pattern is `True`, the minibatch mean is the
mean of that call's input variable over those axes with
`keepdims=True`, and the minibatch standard deviation is
`sqrt(variance-over-those-axes + epsilon)` with `keepdims=True`, where
`epsilon` is the function's epsilon argument. -/
theorem batch_normalize_minibatch_statistics (g : List Var) (ε : ℚ)
    (out : TrainingGraph) (k : AppCall) (m : Var)
    (hrun : batch_normalize g ε = some out)
    (hmem : (k, m) ∈ appCallDict (VariableFilter Role.BATCH_NORM_OFFSET g)) :
    ∃ s i,
      lookupOD (appCallDict (VariableFilter Role.BATCH_NORM_DIVISOR g)) k = some s ∧
      lookupOD (appCallDict (VariableFilter Role.INPUT g)) k = some i ∧
      (m, minibatchOffsetVar k m i) ∈ out.replacements ∧
      (s, minibatchDivisorVar ε k m s i) ∈ out.replacements ∧
      (minibatchOffsetVar k m i).expr =
        TExpr.mean (TExpr.evar i) (trueAxes m.broadcastable) true ∧
      (minibatchDivisorVar ε k m s i).expr =
        TExpr.sqrt (TExpr.add
          (TExpr.variance (TExpr.evar i) (trueAxes m.broadcastable) true)
          (TExpr.const ε)) ∧
      ∀ j, j ∈ trueAxes m.broadcastable ↔ m.broadcastable[j]? = some true := by
  obtain ⟨-, -, -, -, hbuild⟩ := batch_normalize_some_elim g ε out hrun
  obtain ⟨s, i, hs, hi, hmo, hmd⟩ :=
    buildReplacements_mem ε
      (appCallDict (VariableFilter Role.BATCH_NORM_DIVISOR g))
      (appCallDict (VariableFilter Role.INPUT g))
      (appCallDict (VariableFilter Role.BATCH_NORM_OFFSET g))
      out.replacements k m hbuild hmem
  exact ⟨s, i, hs, hi, hmo, hmd, rfl, rfl,
    fun j => mem_trueAxes m.broadcastable j⟩

/-- C1 witness: the conclusion of the minibatch-statistics theorem at
the concrete one-application graph `exGraph` with `epsilon = 1`. -/
theorem batch_normalize_minibatch_statistics_witness :
    ∃ s i,
      lookupOD (appCallDict (VariableFilter Role.BATCH_NORM_DIVISOR exGraph))
        exCall = some s ∧
      lookupOD (appCallDict (VariableFilter Role.INPUT exGraph))
        exCall = some i ∧
      (exMean, minibatchOffsetVar exCall exMean i) ∈ exOut.replacements ∧
      (s, minibatchDivisorVar 1 exCall exMean s i) ∈ exOut.replacements ∧
      (minibatchOffsetVar exCall exMean i).expr =
        TExpr.mean (TExpr.evar i) (trueAxes exMean.broadcastable) true ∧
      (minibatchDivisorVar 1 exCall exMean s i).expr =
        TExpr.sqrt (TExpr.add
          (TExpr.variance (TExpr.evar i) (trueAxes exMean.broadcastable) true)
          (TExpr.const 1)) ∧
      ∀ j, j ∈ trueAxes exMean.broadcastable ↔
        exMean.broadcastable[j]? = some true :=
  batch_normalize_minibatch_statistics exGraph 1 exOut exCall exMean
    (by decide) (by decide)

/-- C2 counterexample: in `aliasGraph` the variable `aliasVar` carries
both the offset and the divisor role (it appears in both variable
filters), yet `batch_normalize` succeeds: the later offset variable
`shadowMean` of the same application call overrides `aliasVar` in the
offset dictionary, so the value-disjointness assertion does not see it.
The claim says `batch_normalize` fails with an assertion error whenever
some variable serves as both an offset and a divisor; here it does not
fail. -/
theorem batch_normalize_aliased_offset_divisor_passes :
    (∃ v ∈ VariableFilter Role.BATCH_NORM_OFFSET aliasGraph,
        v ∈ VariableFilter Role.BATCH_NORM_DIVISOR aliasGraph) ∧
      (batch_normalize aliasGraph 1).isSome = true := by
  constructor
  · exact ⟨aliasVar, by decide, by decide⟩
  · decide

/-- C2 amended.  `batch_normalize` fails with an assertion error exactly
when the sets of application calls owning offset-tagged, divisor-tagged
and input-tagged variables of `BatchNormalization` bricks are not all
identical, or when some variable recorded as an invocation's offset (the
last offset-tagged variable of that invocation in graph order) is also
recorded as some invocation's divisor; it does not fail these assertions
on a well-formed graph.  (A variable carrying both roles escapes the
check when a later variable of the same invocation shadows it in one of
the dictionaries.) -/
theorem batch_normalize_assertion_characterization (g : List Var) (ε : ℚ) :
    (batch_normalize g ε).isSome = true ↔
      (((VariableFilter Role.BATCH_NORM_OFFSET g).map Var.appCall).toFinset =
          ((VariableFilter Role.BATCH_NORM_DIVISOR g).map Var.appCall).toFinset ∧
        ((VariableFilter Role.BATCH_NORM_OFFSET g).map Var.appCall).toFinset =
          ((VariableFilter Role.INPUT g).map Var.appCall).toFinset ∧
        ∀ v ∈ odValues (appCallDict (VariableFilter Role.BATCH_NORM_OFFSET g)),
          v ∉ odValues (appCallDict (VariableFilter Role.BATCH_NORM_DIVISOR g))) := by
  have hbridge1 :
      setEqB (odKeys (appCallDict (VariableFilter Role.BATCH_NORM_OFFSET g)))
          (odKeys (appCallDict (VariableFilter Role.BATCH_NORM_DIVISOR g))) = true ↔
        ((VariableFilter Role.BATCH_NORM_OFFSET g).map Var.appCall).toFinset =
          ((VariableFilter Role.BATCH_NORM_DIVISOR g).map Var.appCall).toFinset := by
    rw [setEqB_iff_toFinset_eq, odKeys_appCallDict_toFinset,
      odKeys_appCallDict_toFinset]
  have hbridge2 :
      setEqB (odKeys (appCallDict (VariableFilter Role.BATCH_NORM_OFFSET g)))
          (odKeys (appCallDict (VariableFilter Role.INPUT g))) = true ↔
        ((VariableFilter Role.BATCH_NORM_OFFSET g).map Var.appCall).toFinset =
          ((VariableFilter Role.INPUT g).map Var.appCall).toFinset := by
    rw [setEqB_iff_toFinset_eq, odKeys_appCallDict_toFinset,
      odKeys_appCallDict_toFinset]
  have hbridge3 :
      disjointB (odValues (appCallDict (VariableFilter Role.BATCH_NORM_OFFSET g)))
          (odValues (appCallDict (VariableFilter Role.BATCH_NORM_DIVISOR g))) = true ↔
        ∀ v ∈ odValues (appCallDict (VariableFilter Role.BATCH_NORM_OFFSET g)),
          v ∉ odValues (appCallDict (VariableFilter Role.BATCH_NORM_DIVISOR g)) :=
    disjointB_iff _ _
  rw [batch_normalize_def]
  cases hc : (setEqB (odKeys (appCallDict (VariableFilter Role.BATCH_NORM_OFFSET g)))
        (odKeys (appCallDict (VariableFilter Role.BATCH_NORM_DIVISOR g))) &&
      setEqB (odKeys (appCallDict (VariableFilter Role.BATCH_NORM_OFFSET g)))
        (odKeys (appCallDict (VariableFilter Role.INPUT g))) &&
      disjointB (odValues (appCallDict (VariableFilter Role.BATCH_NORM_OFFSET g)))
        (odValues (appCallDict (VariableFilter Role.BATCH_NORM_DIVISOR g)))) with
  | false =>
    simp only [Bool.false_eq_true, if_false]
    constructor
    · intro habs
      exact absurd habs (by simp)
    · rintro ⟨h1, h2, h3⟩
      rw [← hbridge1] at h1
      rw [← hbridge2] at h2
      rw [← hbridge3] at h3
      rw [h1, h2, h3] at hc
      exact absurd hc (by simp)
  | true =>
    simp only [if_true]
    obtain ⟨hc12, hc3⟩ := Bool.and_eq_true_iff.mp hc
    obtain ⟨hc1, hc2⟩ := Bool.and_eq_true_iff.mp hc12
    have hkeys : ∀ p ∈ appCallDict (VariableFilter Role.BATCH_NORM_OFFSET g),
        p.1 ∈ odKeys (appCallDict (VariableFilter Role.BATCH_NORM_DIVISOR g)) ∧
        p.1 ∈ odKeys (appCallDict (VariableFilter Role.INPUT g)) := by
      intro p hp
      have hpk : p.1 ∈ odKeys (appCallDict (VariableFilter Role.BATCH_NORM_OFFSET g)) :=
        List.mem_map_of_mem Prod.fst hp
      have e1 := setEqB_iff_toFinset_eq _ _ |>.mp hc1
      have e2 := setEqB_iff_toFinset_eq _ _ |>.mp hc2
      constructor
      · rw [← List.mem_toFinset, ← e1, List.mem_toFinset]
        exact hpk
      · rw [← List.mem_toFinset, ← e2, List.mem_toFinset]
        exact hpk
    have hsome := buildReplacements_isSome ε
      (appCallDict (VariableFilter Role.BATCH_NORM_DIVISOR g))
      (appCallDict (VariableFilter Role.INPUT g))
      (appCallDict (VariableFilter Role.BATCH_NORM_OFFSET g)) hkeys
    constructor
    · intro _
      exact ⟨hbridge1.mp hc1, hbridge2.mp hc2, hbridge3.mp hc3⟩
    · intro _
      rw [Option.isSome_map']
      exact hsome

/-- C2 amended witness: the characterization instantiated at the
well-formed concrete graph `exGraph` with `epsilon = 1`. -/
theorem batch_normalize_assertion_characterization_witness :
    (batch_normalize exGraph 1).isSome = true ↔
      (((VariableFilter Role.BATCH_NORM_OFFSET exGraph).map Var.appCall).toFinset =
          ((VariableFilter Role.BATCH_NORM_DIVISOR exGraph).map Var.appCall).toFinset ∧
        ((VariableFilter Role.BATCH_NORM_OFFSET exGraph).map Var.appCall).toFinset =
          ((VariableFilter Role.INPUT exGraph).map Var.appCall).toFinset ∧
        ∀ v ∈ odValues (appCallDict (VariableFilter Role.BATCH_NORM_OFFSET exGraph)),
          v ∉ odValues (appCallDict (VariableFilter Role.BATCH_NORM_DIVISOR exGraph))) :=
  batch_normalize_assertion_characterization exGraph 1

/-- C3.  `batch_normalize` applies all replacements in a single
`replace` call producing a new graph; the original graph (and every
pre-existing node in it) is carried over unmodified, and the returned
replacement list is complete: two entries for every application call,
never a partial subset. -/
theorem batch_normalize_atomic_frame (g : List Var) (ε : ℚ)
    (out : TrainingGraph) (hrun : batch_normalize g ε = some out) :
    out = ComputationGraph.replace g out.replacements ∧
    out.base = g ∧
    out.replacements.length =
      2 * (appCallDict (VariableFilter Role.BATCH_NORM_OFFSET g)).length := by
  obtain ⟨-, -, -, hbase, hbuild⟩ := batch_normalize_some_elim g ε out hrun
  refine ⟨?_, hbase, ?_⟩
  · cases out with
    | mk base replacements =>
      cases hbase
      rfl
  · exact buildReplacements_length ε
      (appCallDict (VariableFilter Role.BATCH_NORM_DIVISOR g))
      (appCallDict (VariableFilter Role.INPUT g))
      (appCallDict (VariableFilter Role.BATCH_NORM_OFFSET g))
      out.replacements hbuild

/-- C3 witness: the frame property at the concrete graph `exGraph`. -/
theorem batch_normalize_atomic_frame_witness :
    exOut = ComputationGraph.replace exGraph exOut.replacements ∧
    exOut.base = exGraph ∧
    exOut.replacements.length =
      2 * (appCallDict (VariableFilter Role.BATCH_NORM_OFFSET exGraph)).length :=
  batch_normalize_atomic_frame exGraph 1 exOut (by decide)

theorem TExpr.structEq_refl (e : TExpr) : TExpr.structEq e e = true := by
  induction e with
  | evar v => simp [TExpr.structEq]
  | mean e a k ih => simp [TExpr.structEq, ih]
  | variance e a k ih => simp [TExpr.structEq, ih]
  | sqrt e ih => simp [TExpr.structEq, ih]
  | add a b iha ihb => simp [TExpr.structEq, iha, ihb]
  | const c => simp [TExpr.structEq]

/-- C5.  Two runs of `batch_normalize` on the same unmodified graph with
the same epsilon produce equivalent replacement sets: the same old
variables, replaced by structurally equal new expressions. -/
theorem batch_normalize_deterministic (g : List Var) (ε : ℚ)
    (out₁ out₂ : TrainingGraph)
    (h1 : batch_normalize g ε = some out₁)
    (h2 : batch_normalize g ε = some out₂) :
    out₁.replacements.map Prod.fst = out₂.replacements.map Prod.fst ∧
    List.Forall₂ (fun p q => TExpr.structEq p.2.expr q.2.expr = true)
      out₁.replacements out₂.replacements := by
  have heq : out₁ = out₂ := Option.some.inj (h1.symm.trans h2)
  subst heq
  refine ⟨rfl, ?_⟩
  rw [List.forall₂_same]
  intro p _
  exact TExpr.structEq_refl p.2.expr

/-- C5 witness: determinism at the concrete graph `exGraph`. -/
theorem batch_normalize_deterministic_witness :
    exOut.replacements.map Prod.fst = exOut.replacements.map Prod.fst ∧
    List.Forall₂ (fun p q => TExpr.structEq p.2.expr q.2.expr = true)
      exOut.replacements exOut.replacements :=
  batch_normalize_deterministic exGraph 1 exOut exOut (by decide) (by decide)

/-- C6.  Allocation of a `BatchNormalization` brick fails with the
descriptive `ValueError` exactly when the (normalized) `input_dim` and
an explicitly supplied broadcastable mask have different lengths; with
matching lengths, or with no mask supplied (defaulting to all-`False`
of matching length), allocation does not raise this error. -/
theorem allocate_length_check (d : InputDim) (mask : List Bool) :
    (exceptOk (BatchNormalization.allocate
        (BatchNormalization.init (some d) (some mask) true none none)) = true ↔
      mask.length = (normalizeInputDim d).length) ∧
    (mask.length ≠ (normalizeInputDim d).length →
      BatchNormalization.allocate
          (BatchNormalization.init (some d) (some mask) true none none) =
        Except.error "input_dim and broadcastable must be same length") ∧
    exceptOk (BatchNormalization.allocate
        (BatchNormalization.init (some d) none true none none)) = true := by
  refine ⟨⟨?_, ?_⟩, ?_, ?_⟩
  · intro hok
    by_contra hne
    have hne' : (normalizeInputDim d).length ≠ mask.length := fun h => hne h.symm
    simp [BatchNormalization.allocate, BatchNormalization.init, hne',
      exceptOk] at hok
  · intro heq
    have hne' : ¬ (normalizeInputDim d).length ≠ mask.length := by omega
    simp [BatchNormalization.allocate, BatchNormalization.init, hne', exceptOk]
  · intro hne
    have hne' : (normalizeInputDim d).length ≠ mask.length := fun h => hne h.symm
    simp [BatchNormalization.allocate, BatchNormalization.init, hne']
  · have hlen : ¬ (normalizeInputDim d).length ≠
        ((normalizeInputDim d).map (fun _ => false)).length := by
      rw [List.length_map]
      omega
    simp [BatchNormalization.allocate, BatchNormalization.init, hlen, exceptOk]

/-- C6 witness: the length check instantiated at `input_dim = (3, 4)`
and mask `(False, True)`. -/
theorem allocate_length_check_witness :
    (exceptOk (BatchNormalization.allocate
        (BatchNormalization.init (some (InputDim.tuple [3, 4]))
          (some [false, true]) true none none)) = true ↔
      [false, true].length = (normalizeInputDim (InputDim.tuple [3, 4])).length) ∧
    ([false, true].length ≠ (normalizeInputDim (InputDim.tuple [3, 4])).length →
      BatchNormalization.allocate
          (BatchNormalization.init (some (InputDim.tuple [3, 4]))
            (some [false, true]) true none none) =
        Except.error "input_dim and broadcastable must be same length") ∧
    exceptOk (BatchNormalization.allocate
        (BatchNormalization.init (some (InputDim.tuple [3, 4])) none
          true none none)) = true :=
  allocate_length_check (InputDim.tuple [3, 4]) [false, true]

/-- C7.  Constructing a `SpatialBatchNormalization` succeeds exactly
when `input_dim` is a sequence of length at least 2; any integer
`input_dim` or shorter sequence fails with the configuration
`ValueError`. -/
theorem spatial_init_requires_seq_len_two (d : InputDim)
    (kw : Option (List Bool)) (sm : Bool) (wi bi : Option Initializer) :
    exceptOk (SpatialBatchNormalization.init d kw sm wi bi) = true ↔
      ∃ l, d = InputDim.tuple l ∧ 2 ≤ l.length := by
  cases d with
  | int n =>
    simp [SpatialBatchNormalization.init, exceptOk]
  | tuple l =>
    by_cases hshort : l.length < 2
    · have : ¬ 2 ≤ l.length := by omega
      simp [SpatialBatchNormalization.init, hshort, exceptOk, this]
    · have h2 : 2 ≤ l.length := by omega
      simp [SpatialBatchNormalization.init, hshort, exceptOk, h2]

/-- C7 witness: succeeds on `(3, 4)`, instantiated form of the
characterization. -/
theorem spatial_init_requires_seq_len_two_witness :
    exceptOk (SpatialBatchNormalization.init (InputDim.tuple [3, 4])
        none true none none) = true ↔
      ∃ l, InputDim.tuple [3, 4] = InputDim.tuple l ∧ 2 ≤ l.length :=
  spatial_init_requires_seq_len_two (InputDim.tuple [3, 4]) none true none none

/-- C4 counterexample: a `SpatialBatchNormalization` constructed with
the length-2 sequence `input_dim = (3, 4)` but with an explicit
`broadcastable=(True, False)` keyword argument keeps that mask
(`kwargs.setdefault` does not override it), so the brick's broadcast
mask is not `(False, True)` as the claim states for every such
construction. -/
theorem spatial_broadcastable_override_cex :
    SpatialBatchNormalization.init (InputDim.tuple [3, 4])
        (some [true, false]) true none none =
      Except.ok (BatchNormalization.init (some (InputDim.tuple [3, 4]))
        (some [true, false]) true none none) ∧
    (BatchNormalization.init (some (InputDim.tuple [3, 4]))
        (some [true, false]) true none none).broadcastable =
      some [true, false] ∧
    some [true, false] ≠ some [false, true] := by
  refine ⟨rfl, rfl, by decide⟩

/-- C4 amended.  For every `SpatialBatchNormalization` constructed with
a sequence `input_dim` of length at least 2 and no explicit
`broadcastable` keyword argument, the brick's broadcast mask is
`(False,)` followed by `True` for each remaining axis: the first
(channels) axis is never averaged over and all remaining axes are. -/
theorem spatial_default_broadcastable (l : List Nat) (sm : Bool)
    (wi bi : Option Initializer) (hlen : 2 ≤ l.length) :
    ∃ bn, SpatialBatchNormalization.init (InputDim.tuple l) none sm wi bi =
        Except.ok bn ∧
      bn.broadcastable = some (false :: List.replicate (l.length - 1) true) := by
  have hshort : ¬ l.length < 2 := by omega
  refine ⟨BatchNormalization.init (some (InputDim.tuple l))
    (some (false :: List.replicate (l.length - 1) true)) sm wi bi, ?_, rfl⟩
  simp [SpatialBatchNormalization.init, hshort]

/-- C4 amended witness: the default spatial mask at `input_dim =
(3, 4, 5)`. -/
theorem spatial_default_broadcastable_witness :
    2 ≤ [3, 4, 5].length ∧
    ∃ bn, SpatialBatchNormalization.init (InputDim.tuple [3, 4, 5])
        none true none none = Except.ok bn ∧
      bn.broadcastable =
        some (false :: List.replicate ([3, 4, 5].length - 1) true) :=
  ⟨by decide, spatial_default_broadcastable [3, 4, 5] true none none (by decide)⟩

theorem allocate_ok_elim (bn : BatchNormalization) (d : InputDim)
    (mask : List Bool) (st : AllocState)
    (hd : bn.input_dim = some d)
    (hmask : bn.broadcastable = some mask)
    (halloc : BatchNormalization.allocate bn = Except.ok st) :
    st = { W := ⟨1 :: ((normalizeInputDim d).zip mask).map
                  (fun p => if p.2 then 1 else p.1), true :: mask, Val.nan⟩
         , b := ⟨1 :: ((normalizeInputDim d).zip mask).map
                  (fun p => if p.2 then 1 else p.1), true :: mask, Val.nan⟩
         , population_mean := ⟨1 :: ((normalizeInputDim d).zip mask).map
                  (fun p => if p.2 then 1 else p.1), true :: mask, Val.num 0⟩
         , population_stdev := ⟨1 :: ((normalizeInputDim d).zip mask).map
                  (fun p => if p.2 then 1 else p.1), true :: mask, Val.num 1⟩ } := by
  unfold BatchNormalization.allocate at halloc
  rw [hd] at halloc
  rw [hmask] at halloc
  by_cases hlen : (normalizeInputDim d).length ≠ mask.length
  · simp only [Option.getD_some] at halloc
    rw [if_pos hlen] at halloc
    exact absurd halloc (by simp)
  · simp only [Option.getD_some] at halloc
    rw [if_neg hlen] at halloc
    exact (Except.ok.inj halloc).symm

/-- C10.  For every `BatchNormalization` brick with matching-length
`input_dim` and broadcast mask, the allocated scale, shift,
population-mean and population-stdev tensors all share the shape `(1,)`
followed by, for each input axis, `1` if that axis is averaged over and
the original dimension otherwise, with broadcastable pattern `(True,)`
followed by the mask: a leading broadcastable batch axis of size 1 is
always prepended. -/
theorem allocate_shapes (d : InputDim) (mask : List Bool) (st : AllocState)
    (halloc : BatchNormalization.allocate
        (BatchNormalization.init (some d) (some mask) true none none) =
      Except.ok st) :
    st.W.shape = 1 :: ((normalizeInputDim d).zip mask).map
        (fun p => if p.2 then 1 else p.1) ∧
    st.b.shape = st.W.shape ∧
    st.population_mean.shape = st.W.shape ∧
    st.population_stdev.shape = st.W.shape ∧
    st.W.broadcastable = true :: mask ∧
    st.b.broadcastable = true :: mask ∧
    st.population_mean.broadcastable = true :: mask ∧
    st.population_stdev.broadcastable = true :: mask := by
  have hst := allocate_ok_elim
    (BatchNormalization.init (some d) (some mask) true none none)
    d mask st rfl rfl halloc
  subst hst
  exact ⟨rfl, rfl, rfl, rfl, rfl, rfl, rfl, rfl⟩

/-- C10 witness: the shared shape and broadcast pattern at `input_dim =
(3, 4)` with mask `(False, True)`. -/
theorem allocate_shapes_witness :
    BatchNormalization.allocate
        (BatchNormalization.init (some (InputDim.tuple [3, 4]))
          (some [false, true]) true none none) =
      Except.ok
        { W := ⟨[1, 3, 1], [true, false, true], Val.nan⟩
        , b := ⟨[1, 3, 1], [true, false, true], Val.nan⟩
        , population_mean := ⟨[1, 3, 1], [true, false, true], Val.num 0⟩
        , population_stdev := ⟨[1, 3, 1], [true, false, true], Val.num 1⟩ } ∧
    ({ W := ⟨[1, 3, 1], [true, false, true], Val.nan⟩
     , b := ⟨[1, 3, 1], [true, false, true], Val.nan⟩
     , population_mean := ⟨[1, 3, 1], [true, false, true], Val.num 0⟩
     , population_stdev := ⟨[1, 3, 1], [true, false, true], Val.num 1⟩ } :
        AllocState).W.shape =
      1 :: ((normalizeInputDim (InputDim.tuple [3, 4])).zip [false, true]).map
        (fun p => if p.2 then 1 else p.1) :=
  ⟨rfl, (allocate_shapes (InputDim.tuple [3, 4]) [false, true] _ rfl).1⟩

theorem allocate_ok_shape_generic (bn : BatchNormalization) (st : AllocState)
    (halloc : BatchNormalization.allocate bn = Except.ok st) :
    ∃ var_dim bc,
      st = { W := ⟨var_dim, bc, Val.nan⟩
           , b := ⟨var_dim, bc, Val.nan⟩
           , population_mean := ⟨var_dim, bc, Val.num 0⟩
           , population_stdev := ⟨var_dim, bc, Val.num 1⟩ } := by
  unfold BatchNormalization.allocate at halloc
  rcases hd : bn.input_dim with _ | d
  · rw [hd] at halloc
    exact absurd halloc (by simp)
  · rw [hd] at halloc
    rcases hb : bn.broadcastable with _ | mask
    · rw [hb] at halloc
      simp only [Option.getD_none] at halloc
      by_cases hlen : (normalizeInputDim d).length ≠
          ((normalizeInputDim d).map (fun _ => false)).length
      · rw [if_pos hlen] at halloc
        exact absurd halloc (by simp)
      · rw [if_neg hlen] at halloc
        exact ⟨_, _, (Except.ok.inj halloc).symm⟩
    · rw [hb] at halloc
      simp only [Option.getD_some] at halloc
      by_cases hlen : (normalizeInputDim d).length ≠ mask.length
      · rw [if_pos hlen] at halloc
        exact absurd halloc (by simp)
      · rw [if_neg hlen] at halloc
        exact ⟨_, _, (Except.ok.inj halloc).symm⟩

/-- C8.  A `BatchNormalization` brick constructed without explicit
initializers defaults `weights_init` to `Constant(1)` and `biases_init`
to `Constant(0)`; after allocation the population mean tensor is all
zeros and the population stdev tensor is all ones, and after
initialization the scale is filled with 1 and the shift with 0. -/
theorem default_initialization_values (input_dim : Option InputDim)
    (broadcastable : Option (List Bool)) (sm : Bool) (st : AllocState)
    (halloc : BatchNormalization.allocate
        (BatchNormalization.init input_dim broadcastable sm none none) =
      Except.ok st) :
    (BatchNormalization.init input_dim broadcastable sm none none).weights_init =
      Initializer.Constant 1 ∧
    (BatchNormalization.init input_dim broadcastable sm none none).biases_init =
      Initializer.Constant 0 ∧
    st.population_mean.fill = Val.num 0 ∧
    st.population_stdev.fill = Val.num 1 ∧
    (BatchNormalization.runInitialize
        (BatchNormalization.init input_dim broadcastable sm none none) st).W.fill =
      Val.num 1 ∧
    (BatchNormalization.runInitialize
        (BatchNormalization.init input_dim broadcastable sm none none) st).b.fill =
      Val.num 0 := by
  obtain ⟨var_dim, bc, hst⟩ := allocate_ok_shape_generic _ st halloc
  subst hst
  exact ⟨rfl, rfl, rfl, rfl, rfl, rfl⟩

/-- C8 witness: the defaults at `input_dim = (3, 4)` with no mask. -/
theorem default_initialization_values_witness :
    BatchNormalization.allocate
        (BatchNormalization.init (some (InputDim.tuple [3, 4])) none
          true none none) =
      Except.ok
        { W := ⟨[1, 3, 4], [true, false, false], Val.nan⟩
        , b := ⟨[1, 3, 4], [true, false, false], Val.nan⟩
        , population_mean := ⟨[1, 3, 4], [true, false, false], Val.num 0⟩
        , population_stdev := ⟨[1, 3, 4], [true, false, false], Val.num 1⟩ } ∧
    (BatchNormalization.init (some (InputDim.tuple [3, 4])) none true
        none none).weights_init = Initializer.Constant 1 ∧
    ({ W := ⟨[1, 3, 4], [true, false, false], Val.nan⟩
     , b := ⟨[1, 3, 4], [true, false, false], Val.nan⟩
     , population_mean := ⟨[1, 3, 4], [true, false, false], Val.num 0⟩
     , population_stdev := ⟨[1, 3, 4], [true, false, false], Val.num 1⟩ } :
      AllocState).population_mean.fill = Val.num 0 ∧
    (BatchNormalization.runInitialize
        (BatchNormalization.init (some (InputDim.tuple [3, 4])) none true
          none none)
        { W := ⟨[1, 3, 4], [true, false, false], Val.nan⟩
        , b := ⟨[1, 3, 4], [true, false, false], Val.nan⟩
        , population_mean := ⟨[1, 3, 4], [true, false, false], Val.num 0⟩
        , population_stdev :=
            ⟨[1, 3, 4], [true, false, false], Val.num 1⟩ }).W.fill =
      Val.num 1 :=
  ⟨rfl,
    (default_initialization_values (some (InputDim.tuple [3, 4])) none true
      _ rfl).1,
    (default_initialization_values (some (InputDim.tuple [3, 4])) none true
      _ rfl).2.2.1,
    (default_initialization_values (some (InputDim.tuple [3, 4])) none true
      _ rfl).2.2.2.2.1⟩

/-- C9.  A `BatchNormalizedMLP` constructed without an explicit
`use_bias` argument has linear bricks with `use_bias = False`; each
activation is wrapped in a sequence whose first child is a
`BatchNormalization` brick followed by the activation; and after
allocation-config pushing the i-th `BatchNormalization` sub-brick's
`input_dim` equals `dims[i+1]`, the output width of the i-th linear
layer. -/
theorem bn_mlp_structure (acts dims : List Nat)
    (hlen : dims.length = acts.length + 1) :
    (∀ lb ∈ (BatchNormalizedMLP.init acts dims none).linear_transformations,
        lb.use_bias = false) ∧
    (∀ (i a : ℕ), acts[i]? = some a →
      (BatchNormalizedMLP.init acts dims none).activations[i]? =
        some { name := "batch_norm_activation_" ++ toString i
             , children := [SeqChild.bnChild freshBN, SeqChild.actChild a] }) ∧
    ∃ m2 : BatchNormalizedMLP,
      (BatchNormalizedMLP.init acts dims none).pushAllocationConfig =
        some m2 ∧
      ∀ (i a : ℕ), acts[i]? = some a →
        ∃ d, dims[i + 1]? = some d ∧
          m2.activations[i]? =
            some { name := "batch_norm_activation_" ++ toString i
                 , children :=
                     [ SeqChild.bnChild
                         { freshBN with input_dim := some (InputDim.int d) }
                     , SeqChild.actChild a ] } ∧
          ∃ lb, m2.linear_transformations[i]? = some lb ∧
            lb.use_bias = false ∧ lb.output_dim = some d := by
  have hlin_len :
      (BatchNormalizedMLP.init acts dims none).linear_transformations.length =
        acts.length := by
    simp [BatchNormalizedMLP.init]
  have hact_len :
      (BatchNormalizedMLP.init acts dims none).activations.length =
        acts.length := by
    simp [BatchNormalizedMLP.init, List.enum_length]
  have hdims_m : (BatchNormalizedMLP.init acts dims none).dims = dims := rfl
  have htail_len :
      (BatchNormalizedMLP.init acts dims none).dims.tail.length =
        acts.length := by
    rw [hdims_m, List.length_tail]
    omega
  refine ⟨?_, ?_, ?_⟩
  · intro lb hlb
    simp only [BatchNormalizedMLP.init] at hlb
    obtain ⟨a, -, rfl⟩ := List.mem_map.mp hlb
    rfl
  · intro i a ha
    simp only [BatchNormalizedMLP.init]
    rw [List.getElem?_map, List.getElem?_enum, ha]
    rfl
  · have hcond :
        (BatchNormalizedMLP.init acts dims none).linear_transformations.length =
          (BatchNormalizedMLP.init acts dims none).dims.tail.length ∧
        (BatchNormalizedMLP.init acts dims none).activations.length =
          (BatchNormalizedMLP.init acts dims none).dims.tail.length := by
      omega
    have hpush : (BatchNormalizedMLP.init acts dims none).pushAllocationConfig =
        some { BatchNormalizedMLP.init acts dims none with
          linear_transformations :=
            ((BatchNormalizedMLP.init acts dims none).linear_transformations.zip
                ((BatchNormalizedMLP.init acts dims none).dims.zip
                  (BatchNormalizedMLP.init acts dims none).dims.tail)).map
              (fun p => { p.1 with
                input_dim := some p.2.1
              , output_dim := some p.2.2 })
        , activations :=
            ((BatchNormalizedMLP.init acts dims none).activations.zip
                (BatchNormalizedMLP.init acts dims none).dims.tail).map (fun p =>
              { p.1 with
                children := setFirstChildInputDim p.1.children p.2 }) } := by
      unfold BatchNormalizedMLP.pushAllocationConfig
      rw [if_pos hcond]
    refine ⟨_, hpush, ?_⟩
    intro i a ha
    have hi : i < acts.length := (List.getElem?_eq_some.mp ha).1
    have hd1 : i + 1 < dims.length := by omega
    obtain ⟨d, hd⟩ : ∃ d, dims[i + 1]? = some d :=
      ⟨_, List.getElem?_eq_getElem hd1⟩
    obtain ⟨d0, hd0⟩ : ∃ d0, dims[i]? = some d0 :=
      ⟨_, List.getElem?_eq_getElem (by omega)⟩
    have hAi : (BatchNormalizedMLP.init acts dims none).activations[i]? =
        some { name := "batch_norm_activation_" ++ toString i
             , children := [SeqChild.bnChild freshBN, SeqChild.actChild a] } := by
      simp only [BatchNormalizedMLP.init]
      rw [List.getElem?_map, List.getElem?_enum, ha]
      rfl
    have hti : (BatchNormalizedMLP.init acts dims none).dims.tail[i]? = some d := by
      rw [hdims_m, List.getElem?_tail]
      exact hd
    have hLi : (BatchNormalizedMLP.init acts dims none).linear_transformations[i]? =
        some { use_bias := false, input_dim := none, output_dim := none } := by
      simp only [BatchNormalizedMLP.init]
      rw [List.getElem?_map, ha]
      rfl
    refine ⟨d, hd, ?_, ?_⟩
    · show (((BatchNormalizedMLP.init acts dims none).activations.zip
          (BatchNormalizedMLP.init acts dims none).dims.tail).map (fun p =>
            { p.1 with
              children := setFirstChildInputDim p.1.children p.2 }))[i]? = _
      rw [List.getElem?_map]
      have hzip : ((BatchNormalizedMLP.init acts dims none).activations.zip
          (BatchNormalizedMLP.init acts dims none).dims.tail)[i]? =
        some ({ name := "batch_norm_activation_" ++ toString i
              , children := [SeqChild.bnChild freshBN, SeqChild.actChild a] }, d) :=
        List.getElem?_zip_eq_some.mpr ⟨hAi, hti⟩
      rw [hzip]
      rfl
    · have hdz : ((BatchNormalizedMLP.init acts dims none).dims.zip
          (BatchNormalizedMLP.init acts dims none).dims.tail)[i]? =
        some (d0, d) :=
        List.getElem?_zip_eq_some.mpr
          ⟨by rw [hdims_m]; exact hd0, by rw [hdims_m, List.getElem?_tail]; exact hd⟩
      have hzip2 : ((BatchNormalizedMLP.init acts dims none).linear_transformations.zip
          ((BatchNormalizedMLP.init acts dims none).dims.zip
            (BatchNormalizedMLP.init acts dims none).dims.tail))[i]? =
        some ({ use_bias := false, input_dim := none, output_dim := none }, (d0, d)) :=
        List.getElem?_zip_eq_some.mpr ⟨hLi, hdz⟩
      refine ⟨{ use_bias := false, input_dim := some d0, output_dim := some d },
        ?_, rfl, rfl⟩
      show (((BatchNormalizedMLP.init acts dims none).linear_transformations.zip
          ((BatchNormalizedMLP.init acts dims none).dims.zip
            (BatchNormalizedMLP.init acts dims none).dims.tail)).map
          (fun p => { p.1 with
            input_dim := some p.2.1
          , output_dim := some p.2.2 }))[i]? = _
      rw [List.getElem?_map, hzip2]
      rfl

/-- C9 witness: the structure theorem at two activations with
`dims = [4, 5, 6]`. -/
theorem bn_mlp_structure_witness :
    (∀ lb ∈ (BatchNormalizedMLP.init [10, 20] [4, 5, 6] none).linear_transformations,
        lb.use_bias = false) ∧
    (∀ (i a : ℕ), ([10, 20] : List ℕ)[i]? = some a →
      (BatchNormalizedMLP.init [10, 20] [4, 5, 6] none).activations[i]? =
        some { name := "batch_norm_activation_" ++ toString i
             , children := [SeqChild.bnChild freshBN, SeqChild.actChild a] }) ∧
    ∃ m2 : BatchNormalizedMLP,
      (BatchNormalizedMLP.init [10, 20] [4, 5, 6] none).pushAllocationConfig =
        some m2 ∧
      ∀ (i a : ℕ), ([10, 20] : List ℕ)[i]? = some a →
        ∃ d, ([4, 5, 6] : List ℕ)[i + 1]? = some d ∧
          m2.activations[i]? =
            some { name := "batch_norm_activation_" ++ toString i
                 , children :=
                     [ SeqChild.bnChild
                         { freshBN with input_dim := some (InputDim.int d) }
                     , SeqChild.actChild a ] } ∧
          ∃ lb, m2.linear_transformations[i]? = some lb ∧
            lb.use_bias = false ∧ lb.output_dim = some d :=
  bn_mlp_structure [10, 20] [4, 5, 6] (by decide)
